import Mathlib

/-!
Shallow embedding of the SearchUtilty repository (src/src/lib.rs, src/src/main.rs),
a line-oriented literal-substring search tool (a small grep clone).

Strings are modelled as lists of characters (`Str := List Char`); byte positions,
which the highlighter manipulates, are recovered through `Char.utf8Size`.
Fallible operations (file reads, panicking slice operations) return `Except`/`Option`.
-/

namespace Grep

/-- A string, modelled as its list of characters. -/
abbrev Str := List Char

/-- Convert a Lean string literal to the model representation. -/
def strL (s : String) : Str := s.data

deriving instance DecidableEq for Except

/-- Rust `str::starts_with` on the model: is `p` a prefix of `s`? -/
def isPrefixL : Str → Str → Bool
  | [], _ => true
  | _ :: _, [] => false
  | a :: as, b :: bs => a == b && isPrefixL as bs

/-- Rust `str::contains` with a string pattern: substring containment
(`l.contains(q)`), true for the empty pattern. -/
def strContains : Str → Str → Bool
  | [], q => q.isEmpty
  | c :: rest, q => isPrefixL q (c :: rest) || strContains rest q

/-- Modelled fragment of Rust `char::to_lowercase`: ASCII letters fold by +32;
U+0130 (LATIN CAPITAL LETTER I WITH DOT ABOVE) folds to the two characters
U+0069 U+0307, the standard example where folding changes the encoded byte
length; all other characters are left unchanged. -/
def toLowerChar (c : Char) : List Char :=
  if 'A' ≤ c ∧ c ≤ 'Z' then [Char.ofNat (c.toNat + 32)]
  else if c = Char.ofNat 0x130 then [Char.ofNat 0x69, Char.ofNat 0x307]
  else [c]

/-- Rust `str::to_lowercase` on the model. -/
def toLowercase (s : Str) : Str := s.flatMap toLowerChar

/-- UTF-8 byte length of a model string (`str::len` in Rust). -/
def utf8Len (s : Str) : Nat := (s.map Char.utf8Size).sum

/-- The per-line match predicate of `search_and_print` (src/src/lib.rs lines
132-136): lowercased containment when `case_insensitive`, exact containment
otherwise. -/
def matchesLine (line query : Str) (case_insensitive : Bool) : Bool :=
  if case_insensitive then strContains (toLowercase line) (toLowercase query)
  else strContains line query

/-- Opening ANSI marker emitted by the `colored` crate for `.red().bold()`. -/
def emOpen : Str := Char.ofNat 27 :: strL "[1;31m"

/-- Closing ANSI reset marker emitted by the `colored` crate. -/
def emClose : Str := Char.ofNat 27 :: strL "[0m"

/-- The terminal emphasis renderer (`text.red().bold().to_string()`):
wraps the text in the ANSI emphasis markers. -/
def emphasize (t : Str) : Str := emOpen ++ t ++ emClose

/-- Rust `str::replace` on the model: replaces every leftmost non-overlapping
occurrence of `pat` by `repl`; for the empty pattern, Rust inserts `repl` at
every character boundary, including both ends. -/
def replaceL (pat repl : Str) (s : Str) : Str :=
  match pat, s with
  | [], [] => repl
  | [], c :: rest => repl ++ c :: replaceL [] repl rest
  | _ :: _, [] => []
  | p :: ps, c :: rest =>
    if isPrefixL (p :: ps) (c :: rest) then
      repl ++ replaceL (p :: ps) repl (List.drop ps.length rest)
    else
      c :: replaceL (p :: ps) repl rest
termination_by s.length
decreasing_by
  all_goals simp [List.length_drop, List.length_cons]
  all_goals omega

/-- Rust `str::match_indices` (first components) on the model: the byte offsets
of the leftmost non-overlapping occurrences of `pat` in `s`, scanning left to
right and resuming each search at the end of the previous match; `pos` is the
byte offset of the start of `s`.  For the empty pattern Rust yields every
character boundary, including the final one. -/
def matchIndices (pat : Str) (s : Str) (pos : Nat) : List Nat :=
  match pat, s with
  | [], [] => [pos]
  | [], c :: rest => pos :: matchIndices [] rest (pos + c.utf8Size)
  | _ :: _, [] => []
  | p :: ps, c :: rest =>
    if isPrefixL (p :: ps) (c :: rest) then
      pos :: matchIndices (p :: ps) (List.drop ps.length rest) (pos + utf8Len (p :: ps))
    else
      matchIndices (p :: ps) rest (pos + c.utf8Size)
termination_by s.length
decreasing_by
  all_goals simp [List.length_drop, List.length_cons]
  all_goals omega

/-- Take the prefix of `s` occupying exactly `n` bytes; `none` when `n` is not
a character boundary of `s` (a Rust slice `&s[..n]` panics there). -/
def takeBytes : Str → Nat → Option Str
  | _, 0 => some []
  | [], _ + 1 => none
  | c :: cs, n + 1 =>
    if c.utf8Size ≤ n + 1 then (takeBytes cs (n + 1 - c.utf8Size)).map (c :: ·)
    else none

/-- Drop the prefix of `s` occupying exactly `n` bytes; `none` when `n` is not
a character boundary of `s`. -/
def dropBytes : Str → Nat → Option Str
  | s, 0 => some s
  | [], _ + 1 => none
  | c :: cs, n + 1 =>
    if c.utf8Size ≤ n + 1 then dropBytes cs (n + 1 - c.utf8Size)
    else none

/-- Rust byte-range slicing `&s[a..b]`: `none` models the panic on a
non-boundary index. -/
def sliceBytes (s : Str) (a b : Nat) : Option Str :=
  match dropBytes s a with
  | none => none
  | some t => takeBytes t (b - a)

/-- The accumulation loop of the case-insensitive branch of `highlight_query`
(src/src/lib.rs lines 161-169): `starts` are the byte offsets reported by
`match_indices` on the lowercased line, `qByteLen` the byte length of the
lowercased query; slices are taken from the original `line`, and `none`
models a slicing panic. -/
def hlLoop (line : Str) (qByteLen : Nat) : List Nat → Nat → Option Str
  | [], lastIdx => dropBytes line lastIdx
  | start :: more, lastIdx =>
    match sliceBytes line lastIdx start, sliceBytes line start (start + qByteLen),
          hlLoop line qByteLen more (start + qByteLen) with
    | some pre, some mid, some rest => some (pre ++ emphasize mid ++ rest)
    | _, _, _ => none

/-- `highlight_query` (src/src/lib.rs lines 159-173): case-insensitive mode
finds occurrences in the lowercased line and re-slices the original line at
those byte offsets; case-sensitive mode is `line.replace(query, emphasized)`.
`none` models a panic. -/
def highlight_query (line query : Str) (case_insensitive : Bool) : Option Str :=
  if case_insensitive then
    hlLoop line (utf8Len (toLowercase query))
      (matchIndices (toLowercase query) (toLowercase line) 0) 0
  else
    some (replaceL query (emphasize query) line)

/-- Split on a newline character, keeping empty segments. -/
def splitNl : Str → List Str
  | [] => [[]]
  | c :: rest =>
    if c = '\n' then [] :: splitNl rest
    else
      match splitNl rest with
      | [] => [[c]]
      | seg :: segs => (c :: seg) :: segs

/-- Remove one trailing carriage return, as Rust `str::lines` does. -/
def stripCR (s : Str) : Str :=
  if s.getLast? = some '\r' then s.dropLast else s

/-- Rust `str::lines` on the model: split on newlines, drop a final empty
segment (so a trailing newline does not create an extra line), strip a
trailing carriage return from each line. -/
def linesOf (s : Str) : List Str :=
  let segs := splitNl s
  (if segs.getLast? = some [] then segs.dropLast else segs).map stripCR

/-- The configuration record (src/src/lib.rs lines 24-33). -/
structure Config where
  query : Str
  file_paths : List Str
  case_insensitive : Bool
  line_number : Bool
  invert_match : Bool
  recursive_search : Bool
  print_filenames : Bool
  colored_output : Bool
deriving DecidableEq, Repr

/-- The selection rule of `search_and_print` (src/src/lib.rs line 138):
`if config.invert_match { !matches } else { matches }`. -/
def should_print (config : Config) (m : Bool) : Bool :=
  if config.invert_match then !m else m

/-- Whether one line is selected for output under `config`. -/
def lineSelected (config : Config) (line : Str) : Bool :=
  should_print config (matchesLine line config.query config.case_insensitive)

/-- The filename/line-number prefix assembled by `print_result`
(src/src/lib.rs lines 177-183). -/
def outPrefix (config : Config) (file_path : Str) (lineNo : Nat) : Str :=
  (if config.print_filenames then file_path ++ strL ": " else []) ++
  (if config.line_number then strL (toString lineNo) ++ strL ": " else [])

/-- `print_result` (src/src/lib.rs lines 174-192): the single output record
for a selected line; `none` models a panic inside `highlight_query`. -/
def print_result (config : Config) (file_path : Str) (line : Str) (lineNo : Nat) :
    Option Str :=
  match (if config.colored_output then
           highlight_query line config.query config.case_insensitive
         else some line) with
  | none => none
  | some content => some (outPrefix config file_path lineNo ++ content)

/-- Abnormal terminations of a run: a propagated I/O error, or a panic. -/
inductive RunErr where
  | ioErr : String → RunErr
  | panicked : RunErr
deriving DecidableEq, Repr

/-- The per-line loop of `search_and_print` over the enumerated lines:
returns the printed records in order, and the abort cause if any (printing
stops at the first panic; records printed before it are kept). -/
def searchLines (config : Config) (path : Str) :
    List (Nat × Str) → List Str × Option RunErr
  | [] => ([], none)
  | (i, line) :: rest =>
    if lineSelected config line then
      match print_result config path line (i + 1) with
      | none => ([], some RunErr.panicked)
      | some out =>
        (out :: (searchLines config path rest).1, (searchLines config path rest).2)
    else searchLines config path rest

/-- `search_and_print` (src/src/lib.rs lines 130-145). -/
def search_and_print (config : Config) (file_path : Str) (contents : Str) :
    List Str × Option RunErr :=
  searchLines config file_path (linesOf contents).enum

/-- The per-file loop of `search_recursive`: unreadable files are skipped
(`if let Ok(contents)`), readable ones are searched. -/
def searchFiles (fs : Str → Except String Str) (config : Config) :
    List Str → List Str × Option RunErr
  | [] => ([], none)
  | f :: rest =>
    match fs f with
    | Except.error _ => searchFiles fs config rest
    | Except.ok contents =>
      match (search_and_print config f contents).2 with
      | some e => ((search_and_print config f contents).1, some e)
      | none =>
        ((search_and_print config f contents).1 ++ (searchFiles fs config rest).1,
          (searchFiles fs config rest).2)

/-- `search_recursive` (src/src/lib.rs lines 147-157); `walkFn` is the external
directory walker (spec section 6), yielding the regular files under a root. -/
def search_recursive (fs : Str → Except String Str) (walkFn : Str → List Str)
    (config : Config) (folder : Str) : List Str × Option RunErr :=
  searchFiles fs config (walkFn folder)

/-- The loop of `run` over the configured paths (src/src/lib.rs lines 119-126):
flat mode reads each named path, propagating a read error with `?` (fail-fast);
recursive mode delegates to `search_recursive`. -/
def runLoop (fs : Str → Except String Str) (walkFn : Str → List Str)
    (config : Config) : List Str → List Str × Option RunErr
  | [] => ([], none)
  | p :: rest =>
    if config.recursive_search then
      match (search_recursive fs walkFn config p).2 with
      | some e => ((search_recursive fs walkFn config p).1, some e)
      | none =>
        ((search_recursive fs walkFn config p).1 ++ (runLoop fs walkFn config rest).1,
          (runLoop fs walkFn config rest).2)
    else
      match fs p with
      | Except.error msg => ([], some (RunErr.ioErr msg))
      | Except.ok contents =>
        match (search_and_print config p contents).2 with
        | some e => ((search_and_print config p contents).1, some e)
        | none =>
          ((search_and_print config p contents).1 ++ (runLoop fs walkFn config rest).1,
            (runLoop fs walkFn config rest).2)

/-- `run` (src/src/lib.rs lines 118-128): returns the printed records in
order together with the abort cause, if any. -/
def run (fs : Str → Except String Str) (walkFn : Str → List Str)
    (config : Config) : List Str × Option RunErr :=
  runLoop fs walkFn config config.file_paths

/-- The usage text returned for `-h`/`--help` (src/src/lib.rs lines 41-43). -/
def usageMsg : String :=
  "Usage: grep [OPTIONS] <pattern> <files...>\nOptions:\n-i\tCase-insensitive search\n-n\tPrint line numbers\n-v\tInvert match (exclude lines that match the pattern)\n-r\tRecursive directory search\n-f\tPrint filenames\n-c\tEnable colored output\n-h, --help\tShow help information"

/-- The option/path-collecting loop of `Config::build` (src/src/lib.rs lines
61-103): flags toggle booleans, wildcard arguments go through the external
glob resolver `globFn`, other arguments are pushed as paths; after the loop an
empty path list is an error. -/
def buildLoop (globFn : Str → List Str) (c : Config) :
    List Str → Except String Config
  | [] =>
    if c.file_paths = [] then Except.error "Didn't get any file paths"
    else Except.ok c
  | arg :: rest =>
    if isPrefixL (strL "-") arg then
      if arg = strL "-i" then buildLoop globFn { c with case_insensitive := true } rest
      else if arg = strL "-n" then buildLoop globFn { c with line_number := true } rest
      else if arg = strL "-v" then buildLoop globFn { c with invert_match := true } rest
      else if arg = strL "-r" then buildLoop globFn { c with recursive_search := true } rest
      else if arg = strL "-f" then buildLoop globFn { c with print_filenames := true } rest
      else if arg = strL "-c" then buildLoop globFn { c with colored_output := true } rest
      else if arg = strL "-h" ∨ arg = strL "--help" then Except.error usageMsg
      else Except.error "Unknown option encountered"
    else
      if '*' ∈ arg then
        buildLoop globFn { c with file_paths := c.file_paths ++ globFn arg } rest
      else
        buildLoop globFn { c with file_paths := c.file_paths ++ [arg] } rest

/-- `Config::build` (src/src/lib.rs lines 36-116): skips the program name,
takes the next argument as the query (only `-h`/`--help` are intercepted
there), then parses the remaining arguments. -/
def Config.build (globFn : Str → List Str) : List Str → Except String Config
  | [] => Except.error "Didn't get a query string"
  | _progName :: rest =>
    match rest with
    | [] => Except.error "Didn't get a query string"
    | arg :: rest2 =>
      if arg = strL "-h" ∨ arg = strL "--help" then Except.error usageMsg
      else
        buildLoop globFn
          { query := arg, file_paths := [], case_insensitive := false,
            line_number := false, invert_match := false,
            recursive_search := false, print_filenames := false,
            colored_output := false } rest2

/-- The contents a filesystem returns for a path, defaulting to empty on error. -/
def contentsOf (fs : Str → Except String Str) (x : Str) : Str :=
  match fs x with
  | Except.ok c => c
  | Except.error _ => []

/-- The sub-list of enumerated lines of one file selected for output. -/
def selected_lines (config : Config) (contents : Str) : List (Nat × Str) :=
  (linesOf contents).enum.filter fun il => lineSelected config il.2

/-- The specification's notion of contiguous-substring containment
(spec sections 4.1 and 8): `q` occurs contiguously inside `l`. -/
def specContains (l q : Str) : Prop := ∃ pre post, l = pre ++ (q ++ post)

/-- Apply the active case rule of the matcher to one operand. -/
def foldCase (ci : Bool) (s : Str) : Str := if ci then toLowercase s else s

theorem isPrefixL_iff (p : Str) : ∀ s : Str, isPrefixL p s = true ↔ ∃ t, s = p ++ t := by
  induction p with
  | nil =>
    intro s
    simp [isPrefixL]
  | cons a as ih =>
    intro s
    cases s with
    | nil =>
      simp [isPrefixL]
    | cons b bs =>
      simp only [isPrefixL, Bool.and_eq_true, beq_iff_eq, ih, List.cons_append]
      constructor
      · rintro ⟨rfl, t, rfl⟩
        exact ⟨t, rfl⟩
      · rintro ⟨t, h⟩
        injection h with h1 h2
        exact ⟨h1.symm, t, h2⟩

theorem strContains_iff (q : Str) : ∀ l : Str, strContains l q = true ↔ specContains l q := by
  intro l
  induction l with
  | nil =>
    simp only [strContains, List.isEmpty_iff, specContains]
    constructor
    · rintro rfl
      exact ⟨[], [], rfl⟩
    · rintro ⟨pre, post, h⟩
      rcases List.append_eq_nil.mp h.symm with ⟨rfl, h2⟩
      exact (List.append_eq_nil.mp h2).1
  | cons c rest ih =>
    simp only [strContains, Bool.or_eq_true, isPrefixL_iff, ih, specContains]
    constructor
    · rintro (⟨t, h⟩ | ⟨pre, post, rfl⟩)
      · exact ⟨[], t, by simpa using h⟩
      · exact ⟨c :: pre, post, rfl⟩
    · rintro ⟨pre, post, h⟩
      cases pre with
      | nil =>
        left
        exact ⟨post, by simpa using h⟩
      | cons x xs =>
        right
        injection h with h1 h2
        exact ⟨xs, post, h2⟩

theorem strContains_nil_pat : ∀ l : Str, strContains l [] = true := by
  intro l
  cases l <;> simp [strContains, isPrefixL]

theorem matchIndices_eq_nil_iff (pat : Str) : ∀ (s : Str) (pos : Nat),
    matchIndices pat s pos = [] ↔ strContains s pat = false := by
  intro s pos
  induction pat, s, pos using matchIndices.induct with
  | case1 pos => simp [matchIndices, strContains]
  | case2 pos c rest ih => simp [matchIndices, strContains, isPrefixL]
  | case3 pos p ps => simp [matchIndices, strContains]
  | case4 pos p ps c rest h ih => simp [matchIndices, strContains, h]
  | case5 pos p ps c rest h ih =>
    rw [Bool.not_eq_true] at h
    simp [matchIndices, strContains, h, ih]

theorem matchIndices_ge (pat : Str) : ∀ (s : Str) (pos : Nat),
    ∀ i ∈ matchIndices pat s pos, pos ≤ i := by
  intro s pos
  induction pat, s, pos using matchIndices.induct with
  | case1 pos => simp [matchIndices]
  | case2 pos c rest ih =>
    intro i hi
    rcases List.mem_cons.mp (by simpa [matchIndices] using hi) with rfl | hmem
    · exact Nat.le_refl _
    · exact Nat.le_trans (Nat.le_add_right _ _) (ih i hmem)
  | case3 pos p ps => simp [matchIndices]
  | case4 pos p ps c rest h ih =>
    intro i hi
    rcases List.mem_cons.mp (by simpa [matchIndices, h] using hi) with rfl | hmem
    · exact Nat.le_refl _
    · exact Nat.le_trans (Nat.le_add_right _ _) (ih i hmem)
  | case5 pos p ps c rest h ih =>
    intro i hi
    rw [Bool.not_eq_true] at h
    have hi2 : i ∈ matchIndices (p :: ps) rest (pos + c.utf8Size) := by
      simpa [matchIndices, h] using hi
    exact Nat.le_trans (Nat.le_add_right _ _) (ih i hi2)

theorem matchIndices_pairwise : ∀ (pat s : Str) (pos : Nat), pat ≠ [] →
    (matchIndices pat s pos).Pairwise (fun a b => a + utf8Len pat ≤ b) := by
  intro pat s pos
  induction pat, s, pos using matchIndices.induct with
  | case1 pos => intro hne; exact absurd rfl hne
  | case2 pos c rest ih => intro hne; exact absurd rfl hne
  | case3 pos p ps => intro _; simp [matchIndices]
  | case4 pos p ps c rest h ih =>
    intro _
    rw [show matchIndices (p :: ps) (c :: rest) pos =
        pos :: matchIndices (p :: ps) (List.drop ps.length rest) (pos + utf8Len (p :: ps))
      from by simp [matchIndices, h]]
    exact List.pairwise_cons.mpr
      ⟨fun b hb => matchIndices_ge (p :: ps) _ _ b hb, ih (by simp)⟩
  | case5 pos p ps c rest h ih =>
    intro _
    rw [Bool.not_eq_true] at h
    simpa [matchIndices, h] using ih (by simp)

theorem replaceL_nil_pat (repl : Str) : ∀ s : Str,
    replaceL [] repl s = repl ++ s.flatMap (fun c => c :: repl) := by
  intro s
  induction s with
  | nil => simp [replaceL]
  | cons c rest ih => simp [replaceL, ih]

theorem replaceL_append_self (p : Char) (ps repl X : Str) :
    replaceL (p :: ps) repl ((p :: ps) ++ X) = repl ++ replaceL (p :: ps) repl X := by
  have hpre : isPrefixL (p :: ps) (p :: (ps ++ X)) = true :=
    (isPrefixL_iff _ _).mpr ⟨X, by simp⟩
  show replaceL (p :: ps) repl (p :: (ps ++ X)) = _
  simp [replaceL, hpre, List.drop_left]

theorem replaceL_cons_ne (p : Char) (ps repl : Str) (c : Char) (X : Str) (h : c ≠ p) :
    replaceL (p :: ps) repl (c :: X) = c :: replaceL (p :: ps) repl X := by
  have hb : (p == c) = false := beq_eq_false_iff_ne.mpr (Ne.symm h)
  have hpf : isPrefixL (p :: ps) (c :: X) = false := by simp [isPrefixL, hb]
  simp [replaceL, hpf]

theorem replaceL_of_not_contains : ∀ (pat repl s : Str),
    strContains s pat = false → replaceL pat repl s = s := by
  intro pat repl s
  induction pat, repl, s using replaceL.induct with
  | case1 repl => intro h; simp [strContains] at h
  | case2 repl c rest ih => intro h; simp [strContains, isPrefixL] at h
  | case3 repl p ps => intro h; simp [replaceL]
  | case4 repl p ps c rest h2 ih =>
    intro h
    simp [strContains, h2] at h
  | case5 repl p ps c rest h2 ih =>
    intro h
    rw [Bool.not_eq_true] at h2
    simp only [strContains, h2, Bool.false_or] at h
    simp [replaceL, h2, ih h]

theorem strip_highlight_aux (p : Char) (ps : Str) :
    ∀ (n : Nat) (L : Str), L.length ≤ n → Char.ofNat 27 ∉ L →
      replaceL (emphasize (p :: ps)) (p :: ps)
        (replaceL (p :: ps) (emphasize (p :: ps)) L) = L := by
  have hem : emphasize (p :: ps) =
      Char.ofNat 27 :: (strL "[1;31m" ++ ((p :: ps) ++ emClose)) := by
    simp [emphasize, emOpen]
  intro n
  induction n with
  | zero =>
    intro L hL _
    have hL0 : L = [] := List.length_eq_zero.mp (Nat.le_zero.mp hL)
    subst hL0
    rw [hem]
    simp [replaceL]
  | succ n ih =>
    intro L hL hesc
    cases L with
    | nil =>
      rw [hem]
      simp [replaceL]
    | cons c rest =>
      by_cases hpre : isPrefixL (p :: ps) (c :: rest) = true
      · obtain ⟨t, ht⟩ := (isPrefixL_iff _ _).mp hpre
        have htlen : t.length ≤ n := by
          have h1 := congrArg List.length ht
          simp only [List.length_cons, List.length_append] at h1
          simp only [List.length_cons] at hL
          omega
        have htesc : Char.ofNat 27 ∉ t := by
          intro hmem
          exact hesc (ht ▸ List.mem_append_right (p :: ps) hmem)
        rw [ht, replaceL_append_self, hem, replaceL_append_self, ← hem,
          ih t htlen htesc]
      · have hpf : isPrefixL (p :: ps) (c :: rest) = false :=
          Bool.eq_false_iff.mpr hpre
        have hc : c ≠ Char.ofNat 27 := by
          intro hcE
          exact hesc (hcE ▸ List.mem_cons_self c rest)
        have hrlen : rest.length ≤ n := by
          simp [List.length_cons] at hL
          omega
        have hresc : Char.ofNat 27 ∉ rest := fun hmem =>
          hesc (List.mem_cons_of_mem c hmem)
        rw [show replaceL (p :: ps) (emphasize (p :: ps)) (c :: rest) =
            c :: replaceL (p :: ps) (emphasize (p :: ps)) rest
          from by simp [replaceL, hpf], hem, replaceL_cons_ne _ _ _ _ _ hc,
          ← hem, ih rest hrlen hresc]

theorem flatMap_cons_em_length : ∀ l : Str,
    (l.flatMap (fun c => c :: emphasize [])).length = 12 * l.length := by
  intro l
  induction l with
  | nil => simp
  | cons c rest ih =>
    simp only [List.flatMap_cons, List.length_append, List.length_cons, ih]
    have : (emphasize []).length = 11 := by decide
    omega

/-- C1: the matcher agrees with the specification's substring-containment
on both case rules: `matches(L, Q, false)` holds iff `L` contains `Q`
byte-for-byte, and `matches(L, Q, true)` holds iff `lowercase(L)` contains
`lowercase(Q)`. -/
theorem C1_matcher_contains : ∀ line query : Str,
    (matchesLine line query false = true ↔ specContains line query) ∧
    (matchesLine line query true = true ↔
      specContains (toLowercase line) (toLowercase query)) := by
  intro line query
  constructor
  · simpa [matchesLine] using strContains_iff query line
  · simpa [matchesLine] using strContains_iff (toLowercase query) (toLowercase line)

theorem C1_matcher_contains_witness :
    matchesLine (strL "Hello World") (strL "World") false = true ∧
    matchesLine (strL "Hello World") (strL "world") true = true :=
  ⟨((C1_matcher_contains (strL "Hello World") (strL "World")).1).mpr
      ⟨strL "Hello ", [], by decide⟩,
   ((C1_matcher_contains (strL "Hello World") (strL "world")).2).mpr
      ⟨strL "hello ", [], by decide⟩⟩

/-- C2: a line is selected iff `matches(...) != invert_match`, and within one
file the lines selected with `invert_match = true` are exactly the complement
of those selected with `invert_match = false`, other flags held equal. -/
theorem C2_invert_complement : ∀ (config : Config) (m : Bool) (contents : Str)
    (il : Nat × Str),
    should_print config m = (m != config.invert_match) ∧
    (il ∈ (linesOf contents).enum →
      (il ∈ selected_lines { config with invert_match := true } contents ↔
        il ∉ selected_lines { config with invert_match := false } contents)) := by
  intro config m contents il
  constructor
  · cases hinv : config.invert_match <;> cases m <;> simp [should_print, hinv]
  · intro hmem
    simp only [selected_lines, List.mem_filter, hmem, true_and]
    simp only [lineSelected, should_print]
    cases hm : matchesLine il.2 config.query config.case_insensitive <;> simp [hm]

theorem C2_invert_complement_witness :
    (1, strL "y") ∈ selected_lines
      { query := strL "x", file_paths := [], case_insensitive := false,
        line_number := false, invert_match := true, recursive_search := false,
        print_filenames := false, colored_output := false } (strL "x\ny") ↔
    (1, strL "y") ∉ selected_lines
      { query := strL "x", file_paths := [], case_insensitive := false,
        line_number := false, invert_match := false, recursive_search := false,
        print_filenames := false, colored_output := false } (strL "x\ny") :=
  (C2_invert_complement
    { query := strL "x", file_paths := [], case_insensitive := false,
      line_number := false, invert_match := false, recursive_search := false,
      print_filenames := false, colored_output := false }
    true (strL "x\ny") (1, strL "y")).2 (by decide)

/-- C3 counterexample: with an empty query, `highlight_query` does not return
the line unchanged — emphasis markers are inserted. -/
theorem C3_empty_query_counterexample :
    (highlight_query (strL "a") [] false = some (strL "a")) = False := by
  have h1 : highlight_query (strL "a") [] false =
      some (emphasize [] ++ (strL "a").flatMap (fun c => c :: emphasize [])) := by
    simp [highlight_query, replaceL_nil_pat]
  rw [h1]
  decide

/-- C3 amended: `matches(L, "", false)` is true for every `L`, but
`highlight(L, "", false)` does not return `L` unchanged: the empty-text
emphasis marker is inserted at every character boundary of `L`,
including both ends. -/
theorem C3_empty_query_amended : ∀ l : Str,
    matchesLine l [] false = true ∧
    highlight_query l [] false =
      some (emphasize [] ++ l.flatMap (fun c => c :: emphasize [])) ∧
    (highlight_query l [] false = some l) = False := by
  intro l
  have hkey : highlight_query l [] false =
      some (emphasize [] ++ l.flatMap (fun c => c :: emphasize [])) := by
    simp [highlight_query, replaceL_nil_pat]
  refine ⟨by simp [matchesLine, strContains_nil_pat], hkey, eq_false ?_⟩
  intro h
  rw [hkey] at h
  have he : emphasize [] ++ l.flatMap (fun c => c :: emphasize []) = l :=
    Option.some.injEq _ _ ▸ h
  have hlen := congrArg List.length he
  simp only [List.length_append, flatMap_cons_em_length] at hlen
  have h11 : (emphasize []).length = 11 := by decide
  omega

theorem C3_empty_query_amended_witness :
    matchesLine (strL "a") [] false = true ∧
    highlight_query (strL "a") [] false =
      some (emphasize [] ++ (strL "a").flatMap (fun c => c :: emphasize [])) ∧
    (highlight_query (strL "a") [] false = some (strL "a")) = False :=
  C3_empty_query_amended (strL "a")

/-- C4: the case-insensitive highlighter slices the original line at byte
offsets computed on the lowercased line; on the single character U+0130,
whose lowercasing "i" plus U+0307 changes byte lengths, the slice boundary
falls inside the character and the code panics (modelled as `none`),
contradicting the claimed totality and boundary safety. -/
theorem C4_highlight_not_total :
    highlight_query [Char.ofNat 0x130] [Char.ofNat 0x69] true = none := by
  simp [highlight_query, matchIndices, isPrefixL, utf8Len, Char.utf8Size,
    toLowercase, toLowerChar, hlLoop, sliceBytes, dropBytes, takeBytes]

/-- C5: occurrences are found left to right, resuming at the end of the
previous match, so the reported byte offsets are pairwise separated by at
least the pattern's byte length (no double emphasis of overlapping
occurrences); concretely, query "aa" on line "aaaa" produces exactly two
emphasized occurrences. -/
theorem C5_nonoverlapping :
    (∀ (q s : Str) (pos : Nat), q ≠ [] →
      (matchIndices q s pos).Pairwise (fun a b => a + utf8Len q ≤ b)) ∧
    highlight_query (strL "aaaa") (strL "aa") false =
      some (emphasize (strL "aa") ++ emphasize (strL "aa")) := by
  constructor
  · exact fun q s pos h => matchIndices_pairwise q s pos h
  · simp [highlight_query, replaceL, isPrefixL, strL, emphasize, emOpen, emClose]

theorem C5_nonoverlapping_witness :
    (matchIndices (strL "aa") (strL "aaaa") 0).Pairwise
      (fun a b => a + utf8Len (strL "aa") ≤ b) :=
  C5_nonoverlapping.1 (strL "aa") (strL "aaaa") 0 (by decide)

/-- C6: in case-sensitive mode, stripping the inserted emphasis markers
(replacing each emphasized occurrence of the query back by the query) from
`highlight(L, Q, false)` recovers `L` exactly, for every non-empty query and
every line that does not itself contain the out-of-band marker
character ESC (U+001B). -/
theorem C6_strip_roundtrip : ∀ (L Q : Str), Q ≠ [] → Char.ofNat 27 ∉ L →
    (highlight_query L Q false).map (replaceL (emphasize Q) Q) = some L := by
  intro L Q hq hesc
  obtain ⟨p, ps, rfl⟩ : ∃ p ps, Q = p :: ps := by
    cases Q with
    | nil => exact absurd rfl hq
    | cons a as => exact ⟨a, as, rfl⟩
  simp only [highlight_query, Bool.false_eq_true, if_false, Option.map_some]
  exact congrArg some (strip_highlight_aux p ps L.length L (Nat.le_refl _) hesc)

theorem C6_strip_roundtrip_witness :
    (highlight_query (strL "abcab") (strL "ab") false).map
      (replaceL (emphasize (strL "ab")) (strL "ab")) = some (strL "abcab") :=
  C6_strip_roundtrip (strL "abcab") (strL "ab") (by decide) (by decide)

/-- C7 counterexample: `Config::build` accepts an empty pattern argument and
returns a `Config` with an empty query, instead of the usage error the claim
requires. -/
theorem C7_empty_query_accepted :
    Config.build (fun _ => []) [strL "grep", [], strL "a.txt"] =
      Except.ok
        { query := [], file_paths := [strL "a.txt"],
          case_insensitive := false, line_number := false, invert_match := false,
          recursive_search := false, print_filenames := false,
          colored_output := false } := by
  decide

/-- C7 amended: `Config::build` does not enforce non-emptiness of the query:
for any glob resolver and any non-flag, non-wildcard file argument, an
argument list with an empty pattern builds successfully into a `Config`
whose query is the empty string. -/
theorem C7_build_accepts_empty_query : ∀ (globFn : Str → List Str) (name file : Str),
    isPrefixL (strL "-") file = false → '*' ∉ file →
    Config.build globFn [name, [], file] =
      Except.ok
        { query := [], file_paths := [file], case_insensitive := false,
          line_number := false, invert_match := false, recursive_search := false,
          print_filenames := false, colored_output := false } := by
  intro g name file h1 h2
  simp [Config.build, buildLoop, h1, h2]
  exact ⟨by decide, by decide⟩

theorem C7_build_accepts_empty_query_witness :
    Config.build (fun _ => [strL "g.md"]) [strL "grep", [], strL "b.txt"] =
      Except.ok
        { query := [], file_paths := [strL "b.txt"],
          case_insensitive := false, line_number := false, invert_match := false,
          recursive_search := false, print_filenames := false,
          colored_output := false } :=
  C7_build_accepts_empty_query (fun _ => [strL "g.md"]) (strL "grep") (strL "b.txt")
    (by decide) (by decide)

theorem runLoop_flat_aborts (fs : Str → Except String Str) (w : Str → List Str)
    (config : Config) (hflat : config.recursive_search = false) :
    ∀ (l : List Str) (p : Str) (msg : String), p ∈ l →
      fs p = Except.error msg → (runLoop fs w config l).2 ≠ none := by
  intro l
  induction l with
  | nil =>
    intro p msg hp _
    exact absurd hp (List.not_mem_nil p)
  | cons q rest ih =>
    intro p msg hp herr
    cases hfs : fs q with
    | error m => simp [runLoop, hflat, hfs]
    | ok contents =>
      cases hsp : (search_and_print config q contents).2 with
      | some er => simp [runLoop, hflat, hfs, hsp]
      | none =>
        have hprest : p ∈ rest := by
          rcases List.mem_cons.mp hp with rfl | h
          · rw [herr] at hfs
            exact Except.noConfusion hfs
          · exact h
        have hrec := ih p msg hprest herr
        simpa [runLoop, hflat, hfs, hsp] using hrec

/-- C8: in flat (non-recursive) mode, if any configured top-level path fails
to read, `run` aborts with an error (the failure is propagated with `?`, not
recovered or skipped). -/
theorem C8_flat_read_error_aborts : ∀ (fs : Str → Except String Str)
    (w : Str → List Str) (config : Config) (p : Str) (msg : String),
    config.recursive_search = false → p ∈ config.file_paths →
    fs p = Except.error msg → ((run fs w config).2 = none) = False := by
  intro fs w config p msg hflat hp herr
  exact eq_false (runLoop_flat_aborts fs w config hflat config.file_paths p msg hp herr)

theorem C8_flat_read_error_aborts_witness :
    ((run (fun p => if p = strL "a" then Except.ok (strL "hit") else Except.error "nope")
        (fun _ => [])
        { query := strL "hit", file_paths := [strL "a", strL "b"],
          case_insensitive := false, line_number := false, invert_match := false,
          recursive_search := false, print_filenames := false,
          colored_output := false }).2 = none) = False :=
  C8_flat_read_error_aborts
    (fun p => if p = strL "a" then Except.ok (strL "hit") else Except.error "nope")
    (fun _ => [])
    { query := strL "hit", file_paths := [strL "a", strL "b"],
      case_insensitive := false, line_number := false, invert_match := false,
      recursive_search := false, print_filenames := false,
      colored_output := false }
    (strL "b") "nope" rfl (by decide) (by decide)

/-- C9: matcher and highlighter are mutually consistent: for a non-inverted
selected line, the span list on the case-folded operands is non-empty; for an
inverted selected line with colorize set, the printed content is exactly the
raw line (highlighting changes nothing on a non-match). -/
theorem C9_match_highlight_consistent : ∀ (config : Config) (path line : Str) (n : Nat),
    (config.invert_match = false → lineSelected config line = true →
      (matchIndices (foldCase config.case_insensitive config.query)
        (foldCase config.case_insensitive line) 0 = []) = False) ∧
    (config.invert_match = true → lineSelected config line = true →
      config.colored_output = true →
      print_result config path line n = some (outPrefix config path n ++ line)) := by
  intro config path line n
  constructor
  · intro hinv hsel
    have hm : matchesLine line config.query config.case_insensitive = true := by
      simpa [lineSelected, should_print, hinv] using hsel
    apply eq_false
    intro hnil
    have hcf : strContains (foldCase config.case_insensitive line)
        (foldCase config.case_insensitive config.query) = false :=
      (matchIndices_eq_nil_iff _ _ _).mp hnil
    cases hci : config.case_insensitive with
    | false =>
      simp only [matchesLine, hci, Bool.false_eq_true, if_false] at hm
      simp only [foldCase, hci, Bool.false_eq_true, if_false] at hcf
      rw [hm] at hcf
      exact Bool.noConfusion hcf
    | true =>
      simp only [matchesLine, hci, if_true] at hm
      simp only [foldCase, hci, if_true] at hcf
      rw [hm] at hcf
      exact Bool.noConfusion hcf
  · intro hinv hsel hcol
    have hm : matchesLine line config.query config.case_insensitive = false := by
      simpa [lineSelected, should_print, hinv] using hsel
    have hhl : highlight_query line config.query config.case_insensitive = some line := by
      cases hci : config.case_insensitive with
      | false =>
        simp only [matchesLine, hci, Bool.false_eq_true, if_false] at hm
        simp [highlight_query, replaceL_of_not_contains _ _ _ hm]
      | true =>
        simp only [matchesLine, hci, if_true] at hm
        have hmi : matchIndices (toLowercase config.query) (toLowercase line) 0 = [] :=
          (matchIndices_eq_nil_iff _ _ _).mpr hm
        simp [highlight_query, hmi, hlLoop, dropBytes]
    simp [print_result, hcol, hhl]

theorem C9_match_highlight_consistent_witness :
    (matchIndices (foldCase false (strL "x")) (foldCase false (strL "axb")) 0 = []) = False ∧
    print_result
      { query := strL "z", file_paths := [], case_insensitive := false,
        line_number := false, invert_match := true, recursive_search := false,
        print_filenames := false, colored_output := true } (strL "p") (strL "ab") 1 =
      some (outPrefix
        { query := strL "z", file_paths := [], case_insensitive := false,
          line_number := false, invert_match := true, recursive_search := false,
          print_filenames := false, colored_output := true } (strL "p") 1 ++ strL "ab") :=
  ⟨(C9_match_highlight_consistent
      { query := strL "x", file_paths := [], case_insensitive := false,
        line_number := false, invert_match := false, recursive_search := false,
        print_filenames := false, colored_output := false } (strL "p") (strL "axb") 1).1
      rfl (by decide),
   (C9_match_highlight_consistent
      { query := strL "z", file_paths := [], case_insensitive := false,
        line_number := false, invert_match := true, recursive_search := false,
        print_filenames := false, colored_output := true } (strL "p") (strL "ab") 1).2
      rfl (by decide) rfl⟩

theorem runLoop_partial (fs : Str → Except String Str) (w : Str → List Str)
    (config : Config) (hflat : config.recursive_search = false) :
    ∀ (ps1 : List Str) (p : Str) (ps2 : List Str) (msg : String),
      (∀ x ∈ ps1, fs x = Except.ok (contentsOf fs x) ∧
        (search_and_print config x (contentsOf fs x)).2 = none) →
      fs p = Except.error msg →
      runLoop fs w config (ps1 ++ p :: ps2) =
        (ps1.flatMap (fun x => (search_and_print config x (contentsOf fs x)).1),
          some (RunErr.ioErr msg)) := by
  intro ps1
  induction ps1 with
  | nil =>
    intro p ps2 msg _ herr
    simp [runLoop, hflat, herr]
  | cons x xs ih =>
    intro p ps2 msg hok herr
    obtain ⟨hfx, hsp2⟩ := hok x (List.mem_cons_self x xs)
    have hrest := ih p ps2 msg (fun y hy => hok y (List.mem_cons_of_mem x hy)) herr
    simp [runLoop, hflat, hfx, hsp2, hrest, List.flatMap_cons]

/-- C10 (implicit): in flat mode output is not atomic across files: when a
later named file fails to read, the records of every file processed before it
have already been printed and are kept; the run yields that partial output
followed by the propagated error. -/
theorem C10_partial_output : ∀ (fs : Str → Except String Str) (w : Str → List Str)
    (config : Config) (ps1 : List Str) (p : Str) (ps2 : List Str) (msg : String),
    config.recursive_search = false →
    config.file_paths = ps1 ++ p :: ps2 →
    (∀ x ∈ ps1, fs x = Except.ok (contentsOf fs x) ∧
      (search_and_print config x (contentsOf fs x)).2 = none) →
    fs p = Except.error msg →
    run fs w config =
      (ps1.flatMap (fun x => (search_and_print config x (contentsOf fs x)).1),
        some (RunErr.ioErr msg)) := by
  intro fs w config ps1 p ps2 msg hflat hpaths hok herr
  simp only [run, hpaths]
  exact runLoop_partial fs w config hflat ps1 p ps2 msg hok herr

theorem C10_partial_output_witness :
    run (fun q => if q = strL "a" then Except.ok (strL "hit\nmiss") else Except.error "nope")
      (fun _ => [])
      { query := strL "hit", file_paths := [strL "a", strL "b"],
        case_insensitive := false, line_number := false, invert_match := false,
        recursive_search := false, print_filenames := false,
        colored_output := false } =
      ([strL "a"].flatMap (fun x =>
        (search_and_print
          { query := strL "hit", file_paths := [strL "a", strL "b"],
            case_insensitive := false, line_number := false, invert_match := false,
            recursive_search := false, print_filenames := false,
            colored_output := false } x
          (contentsOf (fun q => if q = strL "a" then Except.ok (strL "hit\nmiss")
            else Except.error "nope") x)).1),
        some (RunErr.ioErr "nope")) :=
  C10_partial_output
    (fun q => if q = strL "a" then Except.ok (strL "hit\nmiss") else Except.error "nope")
    (fun _ => [])
    { query := strL "hit", file_paths := [strL "a", strL "b"],
      case_insensitive := false, line_number := false, invert_match := false,
      recursive_search := false, print_filenames := false,
      colored_output := false }
    [strL "a"] (strL "b") [] "nope" rfl rfl (by decide) (by decide)

end Grep
